import Mathlib

/-!
# KanaPop — verification of the simulation core

Shallow embedding of the simulation core of the KanaPop falling-block
typing trainer (`src/App.tsx`, `src/types.ts`).  JavaScript numbers are
modelled as `ℚ` (vertical coordinates, SRS progress) and `ℤ` (score);
counters and levels as `ℕ`.  Randomness (chosen entry, chosen column,
fresh identifiers) is passed in as explicit parameters.
-/

namespace KanaPop

/-! ## Constants

SRS constants are from `src/types.ts` (the embedded `srs.ts` section).
Board geometry constants come from `constants.ts`, which is not among the
sources; they are modelled from the spec. -/

/-- `SRS_INTERVALS` from the sources: sessions between reviews, indexed by level. -/
def SRS_INTERVALS : List ℕ := [0, 1, 3, 7, 14, 30, 60]

/-- `SRS_MAX_LEVEL` from the sources. -/
def SRS_MAX_LEVEL : ℕ := 6

/-- `MASTERY_THRESHOLD` from the sources: level to be considered learned. -/
def MASTERY_THRESHOLD : ℕ := 6

/-- `CONFIDENCE_THRESHOLD_DIFFICULT` from the sources. -/
def CONFIDENCE_THRESHOLD_DIFFICULT : ℤ := 10

/-- `CONFIDENCE_THRESHOLD_HESITANT` from the sources. -/
def CONFIDENCE_THRESHOLD_HESITANT : ℤ := 4

/-- `PROGRESS_CONFIDENT` from the sources. -/
def PROGRESS_CONFIDENT : ℚ := 1/2

/-- `PROGRESS_HESITANT` from the sources. -/
def PROGRESS_HESITANT : ℚ := 1/4

/-- `PROGRESS_DIFFICULT` from the sources. -/
def PROGRESS_DIFFICULT : ℚ := 0

/-- Modelled from the spec: `constants.ts` is missing from the sources.
The spec fixes the board at 8 columns; the comments in `App.tsx` give a
board of 480×600 pixels, so one cell is 60 pixels. -/
def CELL_SIZE : ℚ := 60

/-- Modelled from the spec: number of board columns (board width 8 cells). -/
def COLUMNS : ℕ := 8

/-- Modelled from the spec: board height in pixels (`App.tsx` comments: 600). -/
def BOARD_HEIGHT : ℚ := 600

/-! ## SRS scheduler (`processInput`, `setWordSRS` updater) -/

/-- `ConfidenceLevel` from `types.ts`. -/
inductive ConfidenceLevel
  | confident
  | hesitant
  | difficult
deriving DecidableEq, Repr

/-- `WordSRSData` from `types.ts`. -/
structure WordSRSData where
  level : ℕ
  progress : ℚ
  nextReviewSession : ℕ
  confidentCount : ℕ
  hesitantCount : ℕ
  difficultCount : ℕ
  lastAttemptSession : ℕ
deriving DecidableEq, Repr

/-- The default record created on first encounter of a word
(the `prev[match.wordId!] || { ... }` literal in `processInput`). -/
def defaultSRSData (sessionNumber : ℕ) : WordSRSData :=
  { level := 0
    progress := 0
    nextReviewSession := 0
    confidentCount := 0
    hesitantCount := 0
    difficultCount := 0
    lastAttemptSession := sessionNumber }

/-- Progress gain per confidence level (`processInput`). -/
def progressGain : ConfidenceLevel → ℚ
  | .confident => PROGRESS_CONFIDENT
  | .hesitant => PROGRESS_HESITANT
  | .difficult => PROGRESS_DIFFICULT

/-- One SRS update on a clear event (the `setWordSRS` updater body in
`processInput`): add the confidence-dependent gain, level up on
`progress >= 1.0` while below `SRS_MAX_LEVEL`, store `min 1 progress`,
and reschedule by `SRS_INTERVALS[newLevel]`. -/
def srsStep (current : WordSRSData) (confidence : ConfidenceLevel)
    (sessionNumber : ℕ) : WordSRSData :=
  let gained := current.progress + progressGain confidence
  let levelUp := gained ≥ 1 ∧ current.level < SRS_MAX_LEVEL
  let newLevel := if levelUp then current.level + 1 else current.level
  let newProgress := if levelUp then 0 else gained
  { level := newLevel
    progress := min 1 newProgress
    nextReviewSession := sessionNumber + SRS_INTERVALS.getD newLevel 0
    confidentCount := current.confidentCount + (if confidence = .confident then 1 else 0)
    hesitantCount := current.hesitantCount + (if confidence = .hesitant then 1 else 0)
    difficultCount := current.difficultCount + (if confidence = .difficult then 1 else 0)
    lastAttemptSession := sessionNumber }

/-- The SRS state of one catalog item after a sequence of clear events,
starting from the lazily created default record. -/
def srsApplyEvents (sessionNumber : ℕ) (events : List ConfidenceLevel) : WordSRSData :=
  events.foldl (fun d c => srsStep d c sessionNumber) (defaultSRSData sessionNumber)

/-! ## Review-draw probability (`spawnKana`) -/

/-- The `reviewChance` computation in `spawnKana`: 0 for an empty review
pool, otherwise `min(0.5, 0.3 + dueCount * 0.05)`. -/
def reviewChance (dueCount : ℕ) : ℚ :=
  if 0 < dueCount then min (1/2) (3/10 + (dueCount : ℚ) * (1/20)) else 0

/-! ## Confidence classification (`processInput`) -/

/-- The confidence classification in `processInput`: hint usage first
(3+ hints difficult, 1+ hesitant), then, for stacked blocks with no
hints, the number of blocks processed since landing against the two
thresholds; airborne blocks with no hints are confident. -/
def classifyConfidence (hintCount : ℕ) (isStacked : Bool) (blocksAfter : ℤ) :
    ConfidenceLevel :=
  if hintCount ≥ 3 then .difficult
  else if hintCount ≥ 1 then .hesitant
  else if isStacked then
    if blocksAfter ≥ CONFIDENCE_THRESHOLD_DIFFICULT then .difficult
    else if blocksAfter ≥ CONFIDENCE_THRESHOLD_HESITANT then .hesitant
    else .confident
  else .confident

/-! ## Data model (`types.ts`) -/

/-- The block kinds (`KanaCharacter.type` in `types.ts`). -/
inductive BlockType
  | hiragana
  | katakana
  | word
deriving DecidableEq, Repr

/-- The play modes (`KanaMode` in `types.ts`). -/
inductive KanaMode
  | hiragana
  | katakana
  | both
  | words
deriving DecidableEq, Repr

/-- `KanaCharacter` from `types.ts`: one falling or stacked block.
Optional JavaScript fields are `Option`s; `x`, `y` are the continuous
pixel coordinates. -/
structure KanaCharacter where
  id : String
  char : String
  romaji : String
  type : BlockType
  x : ℚ
  y : ℚ
  column : ℕ
  isDead : Bool
  kanji : Option String
  en : Option String
  wordId : Option String
  wordGroupId : Option String
  wordRomaji : Option String
  wordIndex : Option ℕ
  wordLength : Option ℕ
  stackedAt : Option ℕ
  hintCount : Option ℕ
deriving DecidableEq, Repr

/-- JavaScript truthiness of an optional string: `undefined` and the
empty string are falsy. -/
def truthyStr : Option String → Bool
  | none => false
  | some s => !s.isEmpty

/-- The grouping key used throughout `App.tsx`:
`k.wordGroupId || k.id` (falls back to the block id when the group id is
absent or empty). -/
def groupKey (k : KanaCharacter) : String :=
  match k.wordGroupId with
  | some s => if s.isEmpty then k.id else s
  | none => k.id

/-- Keys in first-occurrence order, each kept once (the key set of the
`groups` record built in `update`, in JavaScript insertion order). -/
def dedupKeys : List String → List String
  | [] => []
  | k :: ks => k :: (dedupKeys ks).filter (fun j => j ≠ k)

/-- The fields of `GameState` (`types.ts`) that the simulation core
reads and writes; presentation-only fields (explosions, souls, popups,
per-character statistics) are omitted. -/
structure GameState where
  score : ℤ
  isActive : Bool
  isGameOver : Bool
  isPaused : Bool
  activeKana : List KanaCharacter
  stackedKana : List KanaCharacter
  mode : KanaMode
  streak : ℕ
  frozenUntil : ℕ
deriving Repr

/-- The state built by `startGame`. -/
def initialState (mode : KanaMode) : GameState :=
  { score := 0
    isActive := true
    isGameOver := false
    isPaused := false
    activeKana := []
    stackedKana := []
    mode := mode
    streak := 0
    frozenUntil := 0 }

/-! ## Fall & collision engine (the `setGameState` updater in `update`) -/

/-- Top of the stack in one column: the smallest stacked `y` in that
column, or the board floor when the column is empty
(`topOfStack` in `update`). -/
def topOfStack (stacked : List KanaCharacter) (col : ℕ) : ℚ :=
  match (stacked.filter (fun s => s.column == col)).map (fun s => s.y) with
  | [] => BOARD_HEIGHT
  | y :: ys => ys.foldl min y

/-- The collision test of `update`: some member's candidate next row
`y + speed` would overlap its column's stack top within one cell. -/
def collides (stacked : List KanaCharacter) (speed : ℚ)
    (group : List KanaCharacter) : Bool :=
  group.any fun kana =>
    decide (kana.y + speed + CELL_SIZE ≥ topOfStack stacked kana.column)

/-- The landing row recomputed on collision (`minTargetY` in `update`):
the minimum of `topOfStack - CELL_SIZE` over all columns occupied by the
group, folded from the sentinel `BOARD_HEIGHT * 2`. -/
def minTargetY (group : List KanaCharacter) (stacked : List KanaCharacter) : ℚ :=
  group.foldl (fun acc kana => min acc (topOfStack stacked kana.column - CELL_SIZE))
    (BOARD_HEIGHT * 2)

/-- Accumulator of the per-group loop in `update`. -/
structure FallAcc where
  nextActive : List KanaCharacter
  nextStacked : List KanaCharacter
  streakReset : Bool
  gameOver : Bool
  score : ℤ
deriving Repr

/-- Processing of one falling group in `update`: on collision the whole
group is appended to the stacked set at the uniform landing row with
`stackedAt` set, the streak-reset flag is raised, a 5-point penalty is
charged per member (clamped at zero each time), and game over is
triggered when the landing row reaches the top; otherwise every member
moves down by the full step. -/
def processGroup (speed : ℚ) (counter : ℕ) (acc : FallAcc)
    (group : List KanaCharacter) : FallAcc :=
  if collides acc.nextStacked speed group then
    let mty := minTargetY group acc.nextStacked
    { nextActive := acc.nextActive
      nextStacked := acc.nextStacked ++
        group.map (fun k => { k with y := mty, stackedAt := some counter })
      streakReset := true
      gameOver := acc.gameOver || decide (mty ≤ 0)
      score := group.foldl (fun s _ => max 0 (s - 5)) acc.score }
  else
    { acc with
      nextActive := acc.nextActive ++ group.map (fun k => { k with y := k.y + speed }) }

/-- The collision phase of `update`: falling blocks are grouped by
`groupKey` in first-occurrence order and each group is processed against
the stacked set accumulated so far. -/
def fallPhase (active stacked : List KanaCharacter) (speed : ℚ)
    (counter : ℕ) (score : ℤ) : FallAcc :=
  let keys := dedupKeys (active.map groupKey)
  keys.foldl
    (fun acc key => processGroup speed counter acc
      (active.filter (fun k => groupKey k == key)))
    { nextActive := []
      nextStacked := stacked
      streakReset := false
      gameOver := false
      score := score }

/-- The floor under a stacked block during gravity compaction: the
smallest `y` strictly below it among already-settled blocks in its
column, or the board floor (`floorY` in `update`). -/
def floorY (settled : List KanaCharacter) (kana : KanaCharacter) : ℚ :=
  match ((settled.filter (fun s => s.column == kana.column && s.y > kana.y)).map
      (fun s => s.y)) with
  | [] => BOARD_HEIGHT
  | y :: ys => ys.foldl min y

/-- The smallest admissible fall distance over the members of one
stacked group (`minFallDistance` in `update`); groups are nonempty in
every call, so the empty case is vacuous. -/
def groupMinFall (settled group : List KanaCharacter) : ℚ :=
  match group.map (fun kana => floorY settled kana - CELL_SIZE - kana.y) with
  | [] => 0
  | d :: ds => ds.foldl min d

/-- The largest `y` of the group with the given key (used as the sort
key of the gravity pass; `aMinY` in `update`). -/
def groupMaxY (stacked : List KanaCharacter) (key : String) : ℚ :=
  match (stacked.filter (fun k => groupKey k == key)).map (fun k => k.y) with
  | [] => 0
  | y :: ys => ys.foldl max y

/-- Stable insertion of a key into a list sorted by descending
`groupMaxY` (the JavaScript stable `sort` by `bMinY - aMinY`). -/
def insertByMaxY (maxY : String → ℚ) (key : String) : List String → List String
  | [] => [key]
  | k :: ks =>
    if maxY key > maxY k then key :: k :: ks else k :: insertByMaxY maxY key ks

/-- Stable sort of the group keys by descending `groupMaxY`. -/
def sortKeysByMaxY (maxY : String → ℚ) (keys : List String) : List String :=
  keys.foldl (fun acc k => insertByMaxY maxY k acc) []

/-- The gravity-compaction phase of `update`: stacked groups are
processed from lowest to highest and each falls the least clearance over
its columns, capped at one tick's speed and floored at zero. -/
def gravityPhase (stacked : List KanaCharacter) (speed : ℚ) : List KanaCharacter :=
  let keys := sortKeysByMaxY (groupMaxY stacked) (dedupKeys (stacked.map groupKey))
  keys.foldl
    (fun settled key =>
      let group := stacked.filter (fun k => groupKey k == key)
      let step := min (groupMinFall settled group) speed
      settled ++ group.map (fun k => { k with y := k.y + max 0 step }))
    []

/-- One simulation tick (`update` without the spawn-timer bookkeeping):
skipped entirely when the game is inactive, over, paused, or inside the
freeze horizon; otherwise the collision phase runs, then gravity, and
the streak, score, and game-over flags are folded into the state. -/
def tick (st : GameState) (speed : ℚ) (counter : ℕ) (now : ℕ) : GameState :=
  if !st.isActive || st.isGameOver || st.isPaused then st
  else if st.frozenUntil ≠ 0 ∧ now < st.frozenUntil then st
  else
    let fa := fallPhase st.activeKana st.stackedKana speed counter st.score
    { st with
      activeKana := fa.nextActive
      stackedKana := gravityPhase fa.nextStacked speed
      isGameOver := fa.gameOver
      isActive := !fa.gameOver
      score := max 0 fa.score
      streak := if fa.streakReset then 0 else st.streak }

/-! ## Match & clear resolver (`processInput`) -/

/-- The primary-match search of `processInput`: the first non-word block
whose `romaji` equals the input, otherwise the first word block whose
shared `wordRomaji` equals the input. -/
def findMatch (allVisible : List KanaCharacter) (val : String) :
    Option KanaCharacter :=
  match allVisible.find? (fun k => k.type != .word && k.romaji == val) with
  | some k => some k
  | none => allVisible.find? (fun k => k.type == .word && k.wordRomaji == some val)

/-- An explosion descriptor (only its board position matters to the
core; the random id is presentation-only). -/
structure Explosion where
  x : ℚ
  y : ℚ
deriving DecidableEq, Repr

/-- The three neighbor positions probed by the simple-symbol chain clear
(top, left, right of the primary match). -/
def neighborOffsets (m : KanaCharacter) : List (ℚ × ℚ) :=
  [(m.x, m.y - CELL_SIZE), (m.x - CELL_SIZE, m.y), (m.x + CELL_SIZE, m.y)]

/-- The neighbor tolerance test of `processInput`:
`|k.x - targetX| < 5 && |k.y - targetY| < 5`. -/
def isNeighbor (k : KanaCharacter) (target : ℚ × ℚ) : Bool :=
  decide (|k.x - target.1| < 5) && decide (|k.y - target.2| < 5)

/-- The simple-symbol neighbor sweep of `processInput`: every stacked
block within tolerance of a neighbor position is cleared; a neighbor
belonging to a word group pulls in its whole (stacked) group, each group
at most once. -/
def neighborSweep (stacked : List KanaCharacter) (m : KanaCharacter)
    (start : List String × List Explosion) : List String × List Explosion :=
  let result : List String × List Explosion × List String :=
    stacked.foldl
      (fun acc k =>
        (neighborOffsets m).foldl
          (fun acc n =>
            if isNeighbor k n then
              if truthyStr k.wordGroupId && !(acc.2.2.contains (k.wordGroupId.getD "")) then
                let gid := k.wordGroupId.getD ""
                let members := stacked.filter (fun s => s.wordGroupId == some gid)
                (acc.1 ++ members.map (fun s => s.id),
                 acc.2.1 ++ members.map (fun s => Explosion.mk s.x s.y),
                 acc.2.2 ++ [gid])
              else if !truthyStr k.wordGroupId then
                (acc.1 ++ [k.id], acc.2.1 ++ [Explosion.mk k.x k.y], acc.2.2)
              else acc
            else acc)
          acc)
      (start.1, start.2, ([] : List String))
  (result.1, result.2.1)

/-- Word-group-id values in first-occurrence order, keeping only truthy
ones (the `matchingGroups` set of `processInput`). -/
def matchingGroupIds (blocks : List KanaCharacter) : List String :=
  dedupKeys (blocks.filterMap (fun k =>
    match k.wordGroupId with
    | some s => if s.isEmpty then none else some s
    | none => none))

/-- The clear-set computation of `processInput`: always clear the
primary match's whole group (or just the match when ungrouped); in word
mode additionally clear every other on-board group with the same
`wordId`; in simple mode, for a stacked primary match, sweep the three
stacked neighbors.  Returns the removed ids and the explosion list. -/
def computeRemoval (active stacked : List KanaCharacter)
    (m : KanaCharacter) : List String × List Explosion :=
  let allVis := active ++ stacked
  let base : List String × List Explosion :=
    if truthyStr m.wordGroupId then
      let members := allVis.filter (fun k => k.wordGroupId == m.wordGroupId)
      (members.map (fun k => k.id), members.map (fun k => Explosion.mk k.x k.y))
    else
      ([m.id], [Explosion.mk m.x m.y])
  let isStacked := stacked.any (fun k => k.id == m.id)
  if m.type == .word && truthyStr m.wordId then
    let allMatching := allVis.filter (fun k => k.wordId == m.wordId)
    let groupIds := matchingGroupIds allMatching
    groupIds.foldl
      (fun acc gid =>
        if m.wordGroupId == some gid then acc
        else
          let members := allVis.filter (fun k => k.wordGroupId == some gid)
          (acc.1 ++ members.map (fun k => k.id),
           acc.2 ++ members.map (fun k => Explosion.mk k.x k.y)))
      base
  else if isStacked then
    neighborSweep stacked m base
  else base

/-- The streak/score bookkeeping and set filtering of the `setGameState`
updater in `processInput`, given the primary match and the computed
clear set. -/
def applyClear (st : GameState) (m : KanaCharacter)
    (removal : List String × List Explosion) (now : ℕ) : GameState :=
  let isEarlyGuess := st.activeKana.any (fun k => k.id == m.id)
  let newStreak := if isEarlyGuess then st.streak + 1 else st.streak
  let isWordType := m.type == .word
  let streakMultiplier : ℤ := if isWordType then 2 else 5
  let basePointValue : ℤ := if isWordType then 3 else 10
  let explosionValue : ℤ := if isWordType then 1 else 5
  let streakBonus : ℤ := if isEarlyGuess then (newStreak : ℤ) * streakMultiplier else 0
  let multiplier : ℚ := if isEarlyGuess then 3/2 else 1
  let basePoints : ℤ := basePointValue + ((removal.2.length : ℤ) - 1) * explosionValue
  let totalPoints : ℤ := ⌊(basePoints : ℚ) * multiplier⌋ + streakBonus
  { st with
    activeKana := st.activeKana.filter (fun k => !(removal.1.contains k.id))
    stackedKana := st.stackedKana.filter (fun k => !(removal.1.contains k.id))
    score := st.score + totalPoints
    streak := newStreak
    frozenUntil := now + 750 }

/-- `processInput` on the game state: on a primary match, compute the
clear set and apply it; otherwise the state is unchanged.  (The parallel
SRS update is `srsStep`; the two share the match and the confidence
classification.) -/
def processInput (st : GameState) (val : String) (now : ℕ) : GameState :=
  match findMatch (st.activeKana ++ st.stackedKana) val with
  | none => st
  | some m => applyClear st m (computeRemoval st.activeKana st.stackedKana m) now

/-- The confidence computed by `processInput` for a word match: hint
count read with `|| 0`, stacked test by id against the stacked set,
elapsed counter since `stackedAt || 0`. -/
def matchConfidence (stacked : List KanaCharacter) (m : KanaCharacter)
    (counter : ℕ) : ConfidenceLevel :=
  classifyConfidence (m.hintCount.getD 0)
    (stacked.any (fun k => k.id == m.id))
    ((counter : ℤ) - (m.stackedAt.getD 0 : ℤ))

/-! ## Spawn scheduler (`spawnKana`) -/

/-- One vocabulary record of the content catalog (`words.ts` shape). -/
structure Word where
  id : String
  kana : String
  kanji : Option String
  romaji : String
  en : String
  morae : ℕ
deriving DecidableEq, Repr

/-- The persisted SRS map, looked up by word id. -/
def WordSRS := String → Option WordSRSData

/-- The level lookup `wordSRS[w.id]?.level || 0`. -/
def srsLevelOf (srs : WordSRS) (w : Word) : ℕ :=
  match srs w.id with
  | none => 0
  | some d => d.level

/-- Whether every catalog item at tier `m` has been seen (`level > 0`);
the code's `unseeenWords.length === 0` test. -/
def tierAllSeen (words : List Word) (srs : WordSRS) (m : ℕ) : Bool :=
  (words.filter (fun w => w.morae == m)).all (fun w => 0 < srsLevelOf srs w)

/-- Whether the catalog has any item at tier `m`. -/
def tierNonempty (words : List Word) (m : ℕ) : Bool :=
  !(words.filter (fun w => w.morae == m)).isEmpty

/-- The score-derived baseline of `maxMorae` in `spawnKana`. -/
def baseMorae (score : ℤ) : ℕ :=
  if score < 500 then 2 else if score < 1000 then 3 else 4

/-- The progression loop of `spawnKana`: for `m` from 2 to 6, skip
tiers below the current maximum and empty tiers; raise the maximum to
`m + 1` when every word at tier `m` is seen, stop at the first tier
with an unseen word. -/
def moraeScan (words : List Word) (srs : WordSRS) : List ℕ → ℕ → ℕ
  | [], mm => mm
  | m :: ms, mm =>
    if m < mm then moraeScan words srs ms mm
    else if !tierNonempty words m then moraeScan words srs ms mm
    else if tierAllSeen words srs m then moraeScan words srs ms (max mm (m + 1))
    else mm

/-- The `maxMorae` value computed by `spawnKana` in word mode. -/
def computeMaxMorae (words : List Word) (srs : WordSRS) (score : ℤ) : ℕ :=
  moraeScan words srs [2, 3, 4, 5, 6] (baseMorae score)

/-- The difficulty tier as the claim words it: scanning tiers upward
from the score-derived baseline, the tier is raised to `t + 1` exactly
when every catalog item at tier `t` has `level > 0`, stopping at the
first tier with an unseen item. -/
def specScanClaim (words : List Word) (srs : WordSRS) : List ℕ → ℕ → ℕ
  | [], cur => cur
  | t :: ts, cur =>
    if tierAllSeen words srs t then specScanClaim words srs ts (t + 1) else cur

/-- The claim's reading of the max-difficulty computation, over the
tiers from the baseline up to 6. -/
def specMaxDifficulty (words : List Word) (srs : WordSRS) (score : ℤ) : ℕ :=
  let b := baseMorae score
  specScanClaim words srs (List.range' b (7 - b)) b

/-- One candidate record as drawn by `spawnKana` (the fields of
`randomEntry` that the spawn placement reads). -/
structure SpawnEntry where
  id : String
  char : String
  kana : String
  kanji : Option String
  romaji : String
  en : Option String
deriving DecidableEq, Repr

/-- The text the spawn displays: the kanji form once the item's SRS
level is at least 2 (when available), else the kana spelling for words,
else the simple symbol. -/
def textToDisplay (mode : KanaMode) (entry : SpawnEntry) (srsLevel : ℕ) : String :=
  let isWord := mode == .words
  if isWord && decide (srsLevel ≥ 2) && truthyStr entry.kanji then entry.kanji.getD ""
  else if isWord then entry.kana
  else entry.char

/-- The spawn collision-avoidance test: some existing falling block
occupies a needed column with `y < CELL_SIZE * 3`. -/
def spawnCollides (active : List KanaCharacter) (startColumn width : ℕ) : Bool :=
  active.any fun k =>
    ((List.range width).any fun i =>
      decide ((startColumn + i : ℤ) = ⌊k.x / CELL_SIZE⌋)) &&
    decide (k.y < CELL_SIZE * 3)

/-- The blocks instantiated by an accepted spawn: one per glyph, all at
`y = -CELL_SIZE`, sharing the group id, transcription, and group
length, with `group-index` running over the glyph positions. -/
def spawnBlocks (mode : KanaMode) (entry : SpawnEntry) (isHira : Bool)
    (startColumn : ℕ) (groupId : String) (ids : ℕ → String)
    (chars : List Char) : List KanaCharacter :=
  let isWord := mode == .words
  let width := chars.length
  chars.enum.map fun p =>
    { id := ids p.1
      char := String.mk [p.2]
      romaji := entry.romaji
      type := if isWord then .word else if isHira then .hiragana else .katakana
      x := ((startColumn + p.1 : ℕ) : ℚ) * CELL_SIZE
      y := -CELL_SIZE
      column := startColumn + p.1
      isDead := false
      kanji := if isWord then entry.kanji else none
      en := if isWord then entry.en else none
      wordId := if isWord then some entry.id else none
      wordGroupId := if isWord then some groupId else none
      wordRomaji := if isWord then some entry.romaji else none
      wordIndex := if isWord then some p.1 else none
      wordLength := if isWord then some width else none
      stackedAt := none
      hintCount := none }

/-- The placement-and-instantiation part of `spawnKana`, after the
candidate entry and starting column have been drawn: decline (state
unchanged) when the width does not fit the board or a falling block
blocks a needed column near the top edge; otherwise append the new
group to the falling set. -/
def spawnKana (st : GameState) (entry : SpawnEntry) (srsLevel : ℕ)
    (isHira : Bool) (startColumn : ℕ) (groupId : String) (ids : ℕ → String) :
    GameState :=
  let chars := (textToDisplay st.mode entry srsLevel).toList
  let width := chars.length
  if COLUMNS < width then st
  else if spawnCollides st.activeKana startColumn width then st
  else
    { st with
      activeKana := st.activeKana ++
        spawnBlocks st.mode entry isHira startColumn groupId ids chars }

/-! ## Reachable states -/

/-- Game states reachable from a fresh game through the three entry
points of the core: the simulation tick, a spawn attempt (with arbitrary
drawn entry, column, and identifiers), and input processing. -/
inductive Reachable : GameState → Prop
  | init (mode : KanaMode) : Reachable (initialState mode)
  | step_tick {st : GameState} (speed : ℚ) (counter now : ℕ) :
      Reachable st → Reachable (tick st speed counter now)
  | step_spawn {st : GameState} (entry : SpawnEntry) (srsLevel : ℕ)
      (isHira : Bool) (startColumn : ℕ) (groupId : String) (ids : ℕ → String) :
      Reachable st → Reachable (spawnKana st entry srsLevel isHira startColumn groupId ids)
  | step_input {st : GameState} (val : String) (now : ℕ) :
      Reachable st → Reachable (processInput st val now)

/-- The invariant of the amended C1: progress stays within `[0, 1]`,
and can only touch `1` at `SRS_MAX_LEVEL`. -/
def SRSInv (d : WordSRSData) : Prop :=
  0 ≤ d.progress ∧ d.progress ≤ 1 ∧ (d.level < SRS_MAX_LEVEL → d.progress < 1)

/-! ## Concrete fixtures for witnesses -/

/-- A simple-symbol test block at the given column and vertical position. -/
def testBlock (id : String) (col : ℕ) (y : ℚ) : KanaCharacter :=
  { id := id
    char := "あ"
    romaji := "a"
    type := .hiragana
    x := (col : ℚ) * CELL_SIZE
    y := y
    column := col
    isDead := false
    kanji := none
    en := none
    wordId := none
    wordGroupId := none
    wordRomaji := none
    wordIndex := none
    wordLength := none
    stackedAt := none
    hintCount := none }

/-- A vocabulary-fragment test block. -/
def testWordBlock (id wid gid romaji : String) (idx len col : ℕ) (y : ℚ)
    (stAt : Option ℕ) : KanaCharacter :=
  { id := id
    char := "ね"
    romaji := romaji
    type := .word
    x := (col : ℚ) * CELL_SIZE
    y := y
    column := col
    isDead := false
    kanji := some "猫"
    en := some "cat"
    wordId := some wid
    wordGroupId := some gid
    wordRomaji := some romaji
    wordIndex := some idx
    wordLength := some len
    stackedAt := stAt
    hintCount := none }

/-- C3 fixture: a stacked block in column 3 whose top sits at `y = 480`. -/
def c3Stack : KanaCharacter := testBlock "s0" 3 480

/-- C3 fixture: a three-fragment word group over columns 2–4 at `y = 420`;
only the middle fragment's column holds a stacked block. -/
def c3Group : List KanaCharacter :=
  [testWordBlock "a0" "w" "g1" "neko" 0 3 2 420 none,
   testWordBlock "a1" "w" "g1" "neko" 1 3 3 420 none,
   testWordBlock "a2" "w" "g1" "neko" 2 3 4 420 none]

/-- C6 fixture: one falling block in column 0 about to land on a stack
whose top is at `y = 60`, so the landing row is `0` — the topmost
playable row. -/
def c6State : GameState :=
  { score := 0
    isActive := true
    isGameOver := false
    isPaused := false
    activeKana := [testBlock "f" 0 0]
    stackedKana := [testBlock "s" 0 60]
    mode := .hiragana
    streak := 0
    frozenUntil := 0 }

/-- C6 fixture: a game-over state. -/
def c6OverState : GameState :=
  { c6State with isGameOver := true, isActive := false }

/-- C5 fixture: a game mid-streak with one falling block about to reach
the floor. -/
def c5Land : GameState :=
  { score := 50
    isActive := true
    isGameOver := false
    isPaused := false
    activeKana := [testBlock "f" 2 500]
    stackedKana := []
    mode := .hiragana
    streak := 3
    frozenUntil := 0 }

/-- C5 fixture: a game mid-streak with one airborne block matching "a". -/
def c5Air : GameState :=
  { c5Land with activeKana := [testBlock "x" 0 100], stackedKana := [] }

/-- C5 fixture: a game mid-streak whose only "a" block is stacked. -/
def c5Stk : GameState :=
  { c5Land with activeKana := [], stackedKana := [testBlock "x" 0 540] }

/-- C9 fixture: a two-glyph vocabulary entry. -/
def c9Entry : SpawnEntry :=
  { id := "neko1"
    char := ""
    kana := "ねこ"
    kanji := none
    romaji := "neko"
    en := some "cat" }

/-- C4 fixture: two on-board instances of the word "neko" — one falling
two-fragment group, one stacked two-fragment group. -/
def c4State : GameState :=
  { score := 0
    isActive := true
    isGameOver := false
    isPaused := false
    activeKana := [testWordBlock "a0" "neko" "g1" "neko" 0 2 2 100 none,
                   testWordBlock "a1" "neko" "g1" "neko" 1 2 3 100 none]
    stackedKana := [testWordBlock "b0" "neko" "g2" "neko" 0 2 5 540 (some 1),
                    testWordBlock "b1" "neko" "g2" "neko" 1 2 6 540 (some 1)]
    mode := .words
    streak := 0
    frozenUntil := 0 }

/-! ## Theorems -/

theorem dedupKeys_subset (l : List String) : ∀ k ∈ dedupKeys l, k ∈ l := by
  induction l with
  | nil => intro k hk; cases hk
  | cons x xs ih =>
    intro k hk
    rcases List.mem_cons.mp hk with h | h
    · exact h ▸ List.mem_cons_self x xs
    · exact List.mem_cons_of_mem x (ih k (List.mem_of_mem_filter h))

theorem foldl_min_le_init (l : List ℚ) (a : ℚ) : l.foldl min a ≤ a := by
  induction l generalizing a with
  | nil => exact le_rfl
  | cons x xs ih => exact le_trans (ih (min a x)) (min_le_left a x)

theorem foldl_min_le_mem (l : List ℚ) (x : ℚ) (hx : x ∈ l) :
    ∀ a : ℚ, l.foldl min a ≤ x := by
  induction l with
  | nil => cases hx
  | cons z zs ih =>
    intro a
    rcases List.mem_cons.mp hx with h | h
    · subst h
      exact le_trans (foldl_min_le_init zs (min a x)) (min_le_right a x)
    · exact ih h (min a z)

theorem foldl_min_eq_init_or_mem (l : List ℚ) (a : ℚ) :
    l.foldl min a = a ∨ l.foldl min a ∈ l := by
  induction l generalizing a with
  | nil => exact Or.inl rfl
  | cons x xs ih =>
    rcases ih (min a x) with h | h
    · rcases min_cases a x with ⟨hm, _⟩ | ⟨hm, _⟩
      · exact Or.inl (by rw [List.foldl_cons, h, hm])
      · exact Or.inr (by rw [List.foldl_cons, h, hm]; exact List.mem_cons_self x xs)
    · exact Or.inr (List.mem_cons_of_mem x h)

theorem topOfStack_le_boardHeight (stacked : List KanaCharacter) (col : ℕ)
    (h : ∀ s ∈ stacked, s.y ≤ BOARD_HEIGHT) :
    topOfStack stacked col ≤ BOARD_HEIGHT := by
  unfold topOfStack
  rcases hm : (stacked.filter (fun s => s.column == col)).map (fun s => s.y) with
    _ | ⟨y, ys⟩
  · simp only [hm]
    exact le_rfl
  · simp only [hm]
    have hy : y ∈ (stacked.filter (fun s => s.column == col)).map (fun s => s.y) := by
      rw [hm]; exact List.mem_cons_self y ys
    obtain ⟨s, hs, hsy⟩ := List.mem_map.mp hy
    rw [← hsy]
    exact le_trans (foldl_min_le_init ys s.y) (h s (List.mem_of_mem_filter hs))

/-- C3: when the candidate next row of any member of a falling group
would overlap its column's stack within one cell, the whole group
transitions to the stacked set at one uniform row, with `stackedAt` set
to the current counter; that row is the minimum over the occupied
columns of (top of the column's stack minus one cell): it is a lower
bound of those clearances and is attained by one of them. -/
theorem group_lands_at_uniform_row (acc : FallAcc) (group : List KanaCharacter)
    (speed : ℚ) (counter : ℕ)
    (hne : group ≠ [])
    (hbd : ∀ s ∈ acc.nextStacked, s.y ≤ BOARD_HEIGHT)
    (hcol : collides acc.nextStacked speed group = true) :
    (processGroup speed counter acc group).nextStacked =
      acc.nextStacked ++ group.map (fun k =>
        { k with y := minTargetY group acc.nextStacked, stackedAt := some counter }) ∧
    (∀ k ∈ group, minTargetY group acc.nextStacked ≤
      topOfStack acc.nextStacked k.column - CELL_SIZE) ∧
    (∃ k ∈ group, minTargetY group acc.nextStacked =
      topOfStack acc.nextStacked k.column - CELL_SIZE) := by
  have hfold : minTargetY group acc.nextStacked =
      (group.map (fun k => topOfStack acc.nextStacked k.column - CELL_SIZE)).foldl
        min (BOARD_HEIGHT * 2) := by
    unfold minTargetY
    rw [List.foldl_map]
  refine ⟨?_, ?_, ?_⟩
  · simp [processGroup, hcol]
  · intro k hk
    rw [hfold]
    exact foldl_min_le_mem _ _ (List.mem_map_of_mem _ hk) _
  · rcases foldl_min_eq_init_or_mem
      (group.map (fun k => topOfStack acc.nextStacked k.column - CELL_SIZE))
      (BOARD_HEIGHT * 2) with h | h
    · exfalso
      obtain ⟨k0, hk0⟩ := List.exists_mem_of_ne_nil group hne
      have hle : (group.map (fun k => topOfStack acc.nextStacked k.column -
          CELL_SIZE)).foldl min (BOARD_HEIGHT * 2) ≤
          topOfStack acc.nextStacked k0.column - CELL_SIZE :=
        foldl_min_le_mem _ _ (List.mem_map_of_mem _ hk0) _
      have htop := topOfStack_le_boardHeight acc.nextStacked k0.column hbd
      rw [h] at hle
      norm_num [BOARD_HEIGHT, CELL_SIZE] at hle htop
      linarith
    · obtain ⟨k, hk, hkeq⟩ := List.mem_map.mp h
      rw [hfold]
      exact ⟨k, hk, hkeq.symm⟩

theorem processGroup_stack_growth (speed : ℚ) (counter : ℕ) (n : ℕ)
    (acc : FallAcc) (group : List KanaCharacter) (hg : group ≠ [])
    (h1 : n ≤ acc.nextStacked.length)
    (h2 : acc.streakReset = true ↔ n < acc.nextStacked.length) :
    n ≤ (processGroup speed counter acc group).nextStacked.length ∧
    ((processGroup speed counter acc group).streakReset = true ↔
      n < (processGroup speed counter acc group).nextStacked.length) := by
  unfold processGroup
  by_cases hcol : collides acc.nextStacked speed group = true
  · have hlen : 0 < group.length := List.length_pos.mpr hg
    simp only [hcol, if_true, List.length_append, List.length_map]
    constructor
    · omega
    · simp only [true_iff]
      omega
  · simp only [Bool.not_eq_true] at hcol
    simp only [hcol, Bool.false_eq_true, if_false]
    exact ⟨h1, h2⟩

theorem fallPhase_streakReset_iff (active stacked : List KanaCharacter)
    (speed : ℚ) (counter : ℕ) (score : ℤ) :
    ((fallPhase active stacked speed counter score).streakReset = true ↔
      stacked.length < (fallPhase active stacked speed counter score).nextStacked.length) := by
  have main : ∀ (keys : List String) (acc : FallAcc),
      (∀ key ∈ keys, active.filter (fun k => groupKey k == key) ≠ []) →
      stacked.length ≤ acc.nextStacked.length →
      (acc.streakReset = true ↔ stacked.length < acc.nextStacked.length) →
      stacked.length ≤ (keys.foldl
        (fun acc key => processGroup speed counter acc
          (active.filter (fun k => groupKey k == key))) acc).nextStacked.length ∧
      ((keys.foldl
        (fun acc key => processGroup speed counter acc
          (active.filter (fun k => groupKey k == key))) acc).streakReset = true ↔
        stacked.length < (keys.foldl
        (fun acc key => processGroup speed counter acc
          (active.filter (fun k => groupKey k == key))) acc).nextStacked.length) := by
    intro keys
    induction keys with
    | nil => intro acc _ h1 h2; exact ⟨h1, h2⟩
    | cons key ks ih =>
      intro acc hne h1 h2
      rw [List.foldl_cons]
      have hgrp := processGroup_stack_growth speed counter stacked.length acc
        (active.filter (fun k => groupKey k == key))
        (hne key (List.mem_cons_self key ks)) h1 h2
      exact ih _ (fun j hj => hne j (List.mem_cons_of_mem key hj)) hgrp.1 hgrp.2
  have hne : ∀ key ∈ dedupKeys (active.map groupKey),
      active.filter (fun k => groupKey k == key) ≠ [] := by
    intro key hkey
    obtain ⟨a, ha, hak⟩ := List.mem_map.mp (dedupKeys_subset _ key hkey)
    intro hnil
    have : a ∈ active.filter (fun k => groupKey k == key) :=
      List.mem_filter.mpr ⟨ha, by simp [hak]⟩
    rw [hnil] at this
    cases this
  exact (main (dedupKeys (active.map groupKey))
    ⟨[], stacked, false, false, score⟩ hne le_rfl (by simp)).2

/-- C5: the streak counter is zero after any active tick in which at
least one group lands (the fall pass raised the reset flag, which holds
exactly when the stacked set grew) and unchanged after a tick in which
nothing lands; a clear whose primary match is still in the falling set
adds exactly one, and a clear whose primary match is stacked leaves the
streak unchanged. -/
theorem streak_accounting (speed : ℚ) (counter now : ℕ) :
    (∀ st : GameState, st.isActive = true → st.isGameOver = false →
      st.isPaused = false → ¬ (st.frozenUntil ≠ 0 ∧ now < st.frozenUntil) →
      (tick st speed counter now).streak =
        (if (fallPhase st.activeKana st.stackedKana speed counter st.score).streakReset
          then 0 else st.streak)) ∧
    (∀ (active stacked : List KanaCharacter) (score : ℤ),
      ((fallPhase active stacked speed counter score).streakReset = true ↔
        stacked.length < (fallPhase active stacked speed counter score).nextStacked.length)) ∧
    (∀ (st : GameState) (val : String) (m : KanaCharacter),
      findMatch (st.activeKana ++ st.stackedKana) val = some m →
      ((st.activeKana.any fun k => k.id == m.id) = true →
        (processInput st val now).streak = st.streak + 1) ∧
      ((st.activeKana.any fun k => k.id == m.id) = false →
        (processInput st val now).streak = st.streak)) := by
  refine ⟨?_, ?_, ?_⟩
  · intro st hA hO hP hF
    simp [tick, hA, hO, hP, hF]
  · intro active stacked score
    exact fallPhase_streakReset_iff active stacked speed counter score
  · intro st val m hm
    constructor
    · intro hearly
      simp [processInput, hm, applyClear, hearly]
    · intro hlate
      simp [processInput, hm, applyClear, hlate]

/-- C5 (witness): a landing tick zeroes a streak of 3; an airborne clear
raises 3 to 4; a stacked clear keeps 3. -/
theorem streak_accounting_witness :
    (tick c5Land 60 0 0).streak = 0 ∧
    (processInput c5Air "a" 0).streak = 4 ∧
    (processInput c5Stk "a" 0).streak = 3 := by
  have h := streak_accounting 60 0 0
  refine ⟨?_, ?_, ?_⟩
  · have ht := h.1 c5Land rfl rfl rfl (by simp [c5Land])
    rw [ht]
    have : (fallPhase c5Land.activeKana c5Land.stackedKana 60 0
        c5Land.score).streakReset = true := by
      simp only [fallPhase, c5Land, testBlock, dedupKeys, groupKey, processGroup,
        collides, topOfStack, minTargetY, CELL_SIZE, BOARD_HEIGHT, List.map,
        List.filter, List.foldl, List.any_cons, List.any_nil]
      norm_num
    rw [this]
    rfl
  · have hm : findMatch (c5Air.activeKana ++ c5Air.stackedKana) "a" =
        some (testBlock "x" 0 100) := by
      simp [findMatch, c5Air, c5Land, testBlock]
    have := (h.2.2 c5Air "a" (testBlock "x" 0 100) hm).1 (by
      simp [c5Air, c5Land, testBlock])
    rw [this]
    rfl
  · have hm : findMatch (c5Stk.activeKana ++ c5Stk.stackedKana) "a" =
        some (testBlock "x" 0 540) := by
      simp [findMatch, c5Stk, c5Land, testBlock]
    have := (h.2.2 c5Stk "a" (testBlock "x" 0 540) hm).2 (by
      simp [c5Stk, c5Land])
    rw [this]
    rfl

theorem spawnBlocks_wordIndex (entry : SpawnEntry) (isHira : Bool)
    (startColumn : ℕ) (groupId : String) (ids : ℕ → String) (chars : List Char) :
    (spawnBlocks .words entry isHira startColumn groupId ids chars).map
      (fun b => b.wordIndex) = (List.range chars.length).map some := by
  have h : (spawnBlocks .words entry isHira startColumn groupId ids chars).map
      (fun b => b.wordIndex) = chars.enum.map (fun p => some p.1) := by
    unfold spawnBlocks
    rw [List.map_map]
    rfl
  rw [h, show (fun p : ℕ × Char => some p.1) = (Option.some ∘ Prod.fst) from rfl,
    ← List.map_map, List.enum_map_fst]

/-- C9: a spawn attempt is atomic.  When the placement does not fit the
board or an existing falling block occupies a needed column within three
cells of the top edge, both block sets are left completely unchanged;
otherwise exactly `width` blocks are appended to the falling set — one
per glyph — sharing the fresh group id, with group indices `0..width-1`,
group length `width`, and the item's transcription.  The stacked set is
never touched by a spawn. -/
theorem spawn_atomic (st : GameState) (entry : SpawnEntry) (srsLevel : ℕ)
    (isHira : Bool) (startColumn : ℕ) (groupId : String) (ids : ℕ → String)
    (hmode : st.mode = .words) :
    ((COLUMNS < (textToDisplay st.mode entry srsLevel).toList.length ∨
      spawnCollides st.activeKana startColumn
        (textToDisplay st.mode entry srsLevel).toList.length = true) →
      spawnKana st entry srsLevel isHira startColumn groupId ids = st) ∧
    (¬ COLUMNS < (textToDisplay st.mode entry srsLevel).toList.length →
      spawnCollides st.activeKana startColumn
        (textToDisplay st.mode entry srsLevel).toList.length = false →
      (spawnKana st entry srsLevel isHira startColumn groupId ids).activeKana =
        st.activeKana ++ spawnBlocks st.mode entry isHira startColumn groupId ids
          (textToDisplay st.mode entry srsLevel).toList ∧
      (spawnBlocks st.mode entry isHira startColumn groupId ids
        (textToDisplay st.mode entry srsLevel).toList).length =
        (textToDisplay st.mode entry srsLevel).toList.length ∧
      (∀ b ∈ spawnBlocks st.mode entry isHira startColumn groupId ids
          (textToDisplay st.mode entry srsLevel).toList,
        b.wordGroupId = some groupId ∧
        b.wordLength = some (textToDisplay st.mode entry srsLevel).toList.length ∧
        b.romaji = entry.romaji ∧ b.wordRomaji = some entry.romaji) ∧
      ((spawnBlocks st.mode entry isHira startColumn groupId ids
          (textToDisplay st.mode entry srsLevel).toList).map
        (fun b => b.wordIndex) =
        (List.range (textToDisplay st.mode entry srsLevel).toList.length).map some)) ∧
    (spawnKana st entry srsLevel isHira startColumn groupId ids).stackedKana =
      st.stackedKana := by
  refine ⟨?_, ?_, ?_⟩
  · intro h
    unfold spawnKana
    by_cases hw : COLUMNS < (textToDisplay st.mode entry srsLevel).toList.length
    · rw [if_pos hw]
    · rw [if_neg hw]
      rcases h with h | h
      · exact absurd h hw
      · rw [if_pos h]
  · intro hfit hcol
    refine ⟨?_, ?_, ?_, ?_⟩
    · unfold spawnKana
      rw [if_neg hfit, if_neg (by rw [hcol]; simp)]
    · simp [spawnBlocks]
    · intro b hb
      simp only [spawnBlocks, List.mem_map] at hb
      obtain ⟨p, _, hpb⟩ := hb
      subst hpb
      simp [hmode]
    · rw [hmode]
      exact spawnBlocks_wordIndex entry isHira startColumn groupId ids _
  · unfold spawnKana
    by_cases hw : COLUMNS < (textToDisplay st.mode entry srsLevel).toList.length
    · rw [if_pos hw]
    · rw [if_neg hw]
      by_cases hc : spawnCollides st.activeKana startColumn
          (textToDisplay st.mode entry srsLevel).toList.length = true
      · rw [if_pos hc]
      · rw [if_neg hc]

/-- C9 (witness): spawning "ねこ" on an empty board in word mode appends
two fragments with indices 0 and 1, group length 2, and transcription
"neko". -/
theorem spawn_atomic_witness :
    (spawnKana (initialState .words) c9Entry 0 false 1 "g7" (fun i =>
      if i = 0 then "i0" else "i1")).activeKana =
      spawnBlocks .words c9Entry false 1 "g7" (fun i =>
        if i = 0 then "i0" else "i1") (textToDisplay .words c9Entry 0).toList ∧
    (spawnBlocks .words c9Entry false 1 "g7" (fun i =>
      if i = 0 then "i0" else "i1") (textToDisplay .words c9Entry 0).toList).length = 2 := by
  have h := spawn_atomic (initialState .words) c9Entry 0 false 1 "g7"
    (fun i => if i = 0 then "i0" else "i1") rfl
  have hfit : ¬ COLUMNS < (textToDisplay (initialState .words).mode c9Entry 0).toList.length := by
    decide
  have hcol : spawnCollides (initialState .words).activeKana 1
      (textToDisplay (initialState .words).mode c9Entry 0).toList.length = false := rfl
  have h2 := h.2.1 hfit hcol
  refine ⟨?_, ?_⟩
  · have := h2.1
    simpa [initialState] using this
  · have := h2.2.1
    simpa [initialState] using this

theorem scan_eq_claim (words : List Word) (srs : WordSRS) :
    ∀ (n a : ℕ), a + n = 7 →
    (∀ m, a ≤ m → m ≤ 6 → tierNonempty words m = true) →
    ∀ mm, mm ≤ a →
    moraeScan words srs (List.range' a n) mm =
      specScanClaim words srs (List.range' a n) mm := by
  intro n
  induction n with
  | zero => intro a _ _ mm _; rfl
  | succ k ih =>
    intro a ha hne mm hmm
    show moraeScan words srs (a :: List.range' (a + 1) k) mm =
      specScanClaim words srs (a :: List.range' (a + 1) k) mm
    have hnm : ¬ a < mm := not_lt.mpr hmm
    have hne_a : tierNonempty words a = true := hne a le_rfl (by omega)
    cases hAa : tierAllSeen words srs a with
    | false => simp [moraeScan, specScanClaim, hnm, hne_a, hAa]
    | true =>
      have hmax : max mm (a + 1) = a + 1 := by omega
      simp only [moraeScan, specScanClaim, if_neg hnm, hne_a, Bool.not_true,
        Bool.false_eq_true, if_false, hAa, if_true, hmax]
      exact ih (a + 1) (by omega) (fun m h1 h2 => hne m (by omega) h2) (a + 1) le_rfl

/-- C7: in word mode the max-difficulty computation agrees with the
claim's description whenever every tier 2–6 of the catalog is inhabited:
starting from the score-derived baseline (2 below 500 points, 3 below
1000, else 4) and scanning tiers upward, the tier is raised to `t + 1`
exactly when every item at tier `t` has `level > 0`, stopping at the
first tier with an unseen item; in particular, from baseline 2 with all
tier-2 items seen and a tier-3 item unseen, the result is 3 — never 4. -/
theorem maxDifficulty_matches_claim (words : List Word) (srs : WordSRS) (score : ℤ)
    (h2 : tierNonempty words 2 = true) (h3 : tierNonempty words 3 = true)
    (h4 : tierNonempty words 4 = true) (h5 : tierNonempty words 5 = true)
    (h6 : tierNonempty words 6 = true) :
    computeMaxMorae words srs score = specMaxDifficulty words srs score ∧
    (score < 500 → tierAllSeen words srs 2 = true → tierAllSeen words srs 3 = false →
      computeMaxMorae words srs score = 3 ∧ computeMaxMorae words srs score ≠ 4) := by
  have hall : ∀ m, 2 ≤ m → m ≤ 6 → tierNonempty words m = true := by
    intro m hm1 hm2
    interval_cases m <;> assumption
  constructor
  · unfold computeMaxMorae specMaxDifficulty
    rcases lt_or_ge score 500 with hs | hs
    · have hb : baseMorae score = 2 := by simp [baseMorae, hs]
      rw [hb]
      have hres := scan_eq_claim words srs 5 2 rfl hall 2 le_rfl
      exact hres
    · rcases lt_or_ge score 1000 with hs2 | hs2
      · have hb : baseMorae score = 3 := by
          simp [baseMorae, hs2, not_lt.mpr hs]
        rw [hb]
        have hskip : moraeScan words srs [2, 3, 4, 5, 6] 3 =
            moraeScan words srs [3, 4, 5, 6] 3 := by
          simp [moraeScan]
        rw [hskip]
        have hres := scan_eq_claim words srs 4 3 rfl
          (fun m hm1 hm2 => hall m (by omega) hm2) 3 le_rfl
        exact hres
      · have hb : baseMorae score = 4 := by
          simp [baseMorae, not_lt.mpr hs, not_lt.mpr hs2]
        rw [hb]
        have hskip : moraeScan words srs [2, 3, 4, 5, 6] 4 =
            moraeScan words srs [4, 5, 6] 4 := by
          simp [moraeScan]
        rw [hskip]
        have hres := scan_eq_claim words srs 3 4 rfl
          (fun m hm1 hm2 => hall m (by omega) hm2) 4 le_rfl
        exact hres
  · intro hs hA2 hA3
    have hb : baseMorae score = 2 := by simp [baseMorae, hs]
    have : computeMaxMorae words srs score = 3 := by
      unfold computeMaxMorae
      rw [hb]
      simp [moraeScan, h2, h3, hA2, hA3]
    exact ⟨this, by rw [this]; omega⟩

/-- C7 (witness): a five-word catalog, one per tier, with only the
tier-2 word seen: the computed maximum is 3, matching the claim scan. -/
theorem maxDifficulty_matches_claim_witness :
    computeMaxMorae
      [⟨"a", "あ", none, "a", "a", 2⟩, ⟨"b", "い", none, "b", "b", 3⟩,
       ⟨"c", "う", none, "c", "c", 4⟩, ⟨"d", "え", none, "d", "d", 5⟩,
       ⟨"e", "お", none, "e", "e", 6⟩]
      (fun w => if w = "a" then some
        { level := 1, progress := 0, nextReviewSession := 0, confidentCount := 0,
          hesitantCount := 0, difficultCount := 0, lastAttemptSession := 0 }
        else none) 0 = 3 := by
  have h := maxDifficulty_matches_claim
    [⟨"a", "あ", none, "a", "a", 2⟩, ⟨"b", "い", none, "b", "b", 3⟩,
     ⟨"c", "う", none, "c", "c", 4⟩, ⟨"d", "え", none, "d", "d", 5⟩,
     ⟨"e", "お", none, "e", "e", 6⟩]
    (fun w => if w = "a" then some
      { level := 1, progress := 0, nextReviewSession := 0, confidentCount := 0,
        hesitantCount := 0, difficultCount := 0, lastAttemptSession := 0 }
      else none) 0
    (by decide) (by decide) (by decide) (by decide) (by decide)
  exact (h.2 (by omega) (by decide) (by decide)).1

theorem mem_dedupKeys (l : List String) (a : String) :
    a ∈ dedupKeys l ↔ a ∈ l := by
  constructor
  · exact fun h => dedupKeys_subset l a h
  · intro h
    induction l with
    | nil => cases h
    | cons k ks ih =>
      rcases List.mem_cons.mp h with h1 | h1
      · exact h1 ▸ List.mem_cons_self k (dedupKeys ks |>.filter (fun j => j ≠ k))
      · by_cases hak : a = k
        · exact hak ▸ List.mem_cons_self k _
        · exact List.mem_cons_of_mem k
            (List.mem_filter.mpr ⟨ih h1, by simp [hak]⟩)

theorem dedupKeys_nodup (l : List String) : (dedupKeys l).Nodup := by
  induction l with
  | nil => exact List.nodup_nil
  | cons k ks ih =>
    refine List.Nodup.cons ?_ (ih.filter _)
    intro hk
    have := List.mem_filter.mp hk
    simp at this

theorem findMatch_mem (l : List KanaCharacter) (val : String) (m : KanaCharacter)
    (h : findMatch l val = some m) : m ∈ l := by
  unfold findMatch at h
  rcases hh : l.find? (fun k => k.type != .word && k.romaji == val) with _ | k
  · rw [hh] at h
    exact List.mem_of_find?_eq_some h
  · rw [hh] at h
    cases h
    exact List.mem_of_find?_eq_some hh

theorem removal_fold_spec (allVis : List KanaCharacter) (m : KanaCharacter) :
    ∀ (gids : List String) (acc : List String × List Explosion),
    acc.2.length = acc.1.length →
    acc.1.Nodup →
    gids.Nodup →
    (∀ gid ∈ gids, (m.wordGroupId == some gid) = false →
      ∀ k ∈ allVis.filter (fun k => k.wordGroupId == some gid), k.id ∉ acc.1) →
    (∀ gid1 ∈ gids, ∀ gid2 ∈ gids, gid1 ≠ gid2 →
      ∀ k1 ∈ allVis.filter (fun k => k.wordGroupId == some gid1),
      ∀ k2 ∈ allVis.filter (fun k => k.wordGroupId == some gid2), k1.id ≠ k2.id) →
    (∀ gid ∈ gids,
      ((allVis.filter (fun k => k.wordGroupId == some gid)).map
        (fun k => k.id)).Nodup) →
    (gids.foldl (fun acc gid =>
        if m.wordGroupId == some gid then acc
        else (acc.1 ++ (allVis.filter (fun k => k.wordGroupId == some gid)).map
                (fun k => k.id),
              acc.2 ++ (allVis.filter (fun k => k.wordGroupId == some gid)).map
                (fun k => Explosion.mk k.x k.y))) acc).2.length =
      (gids.foldl (fun acc gid =>
        if m.wordGroupId == some gid then acc
        else (acc.1 ++ (allVis.filter (fun k => k.wordGroupId == some gid)).map
                (fun k => k.id),
              acc.2 ++ (allVis.filter (fun k => k.wordGroupId == some gid)).map
                (fun k => Explosion.mk k.x k.y))) acc).1.length ∧
    (gids.foldl (fun acc gid =>
        if m.wordGroupId == some gid then acc
        else (acc.1 ++ (allVis.filter (fun k => k.wordGroupId == some gid)).map
                (fun k => k.id),
              acc.2 ++ (allVis.filter (fun k => k.wordGroupId == some gid)).map
                (fun k => Explosion.mk k.x k.y))) acc).1.Nodup ∧
    (∀ x, x ∈ (gids.foldl (fun acc gid =>
        if m.wordGroupId == some gid then acc
        else (acc.1 ++ (allVis.filter (fun k => k.wordGroupId == some gid)).map
                (fun k => k.id),
              acc.2 ++ (allVis.filter (fun k => k.wordGroupId == some gid)).map
                (fun k => Explosion.mk k.x k.y))) acc).1 ↔
      x ∈ acc.1 ∨ ∃ gid ∈ gids, (m.wordGroupId == some gid) = false ∧
        x ∈ (allVis.filter (fun k => k.wordGroupId == some gid)).map
          (fun k => k.id)) := by
  intro gids
  induction gids with
  | nil =>
    intro acc h1 h2 _ _ _ _
    refine ⟨h1, h2, fun x => ?_⟩
    simp
  | cons gid rest ih =>
    intro acc h1 h2 h3 h4 h5 h6
    rw [List.foldl_cons]
    by_cases hskip : (m.wordGroupId == some gid) = true
    · rw [if_pos hskip]
      have hres := ih acc h1 h2 (List.nodup_cons.mp h3).2
        (fun g hg hf => h4 g (List.mem_cons_of_mem gid hg) hf)
        (fun g1 hg1 g2 hg2 hne => h5 g1 (List.mem_cons_of_mem gid hg1) g2
          (List.mem_cons_of_mem gid hg2) hne)
        (fun g hg => h6 g (List.mem_cons_of_mem gid hg))
      refine ⟨hres.1, hres.2.1, fun x => ?_⟩
      rw [hres.2.2 x]
      constructor
      · rintro (hx | ⟨g, hg, hgf, hgx⟩)
        · exact Or.inl hx
        · exact Or.inr ⟨g, List.mem_cons_of_mem gid hg, hgf, hgx⟩
      · rintro (hx | ⟨g, hg, hgf, hgx⟩)
        · exact Or.inl hx
        · rcases List.mem_cons.mp hg with hgg | hgg
          · subst hgg
            rw [hskip] at hgf
            cases hgf
          · exact Or.inr ⟨g, hgg, hgf, hgx⟩
    · have hskipf : (m.wordGroupId == some gid) = false := by
        simpa using hskip
      rw [if_neg (by simp [hskipf])]
      have hfreshgid := h4 gid (List.mem_cons_self gid rest) hskipf
      have hnodup1 : (acc.1 ++ (allVis.filter
          (fun k => k.wordGroupId == some gid)).map (fun k => k.id)).Nodup := by
        refine List.Nodup.append h2 (h6 gid (List.mem_cons_self gid rest)) ?_
        intro x hx1 hx2
        obtain ⟨k0, hk0, hk0e⟩ := List.mem_map.mp hx2
        exact hfreshgid k0 hk0 (hk0e ▸ hx1)
      have hres := ih
        (acc.1 ++ (allVis.filter (fun k => k.wordGroupId == some gid)).map
          (fun k => k.id),
         acc.2 ++ (allVis.filter (fun k => k.wordGroupId == some gid)).map
          (fun k => Explosion.mk k.x k.y))
        (by simp [h1]) hnodup1 (List.nodup_cons.mp h3).2
        (by
          intro g hg hgf k hk hmem
          rcases List.mem_append.mp hmem with hmem1 | hmem1
          · exact h4 g (List.mem_cons_of_mem gid hg) hgf k hk hmem1
          · obtain ⟨k0, hk0, hk0e⟩ := List.mem_map.mp hmem1
            have hne : g ≠ gid := by
              intro hgg
              exact (List.nodup_cons.mp h3).1 (hgg ▸ hg)
            exact h5 g (List.mem_cons_of_mem gid hg) gid
              (List.mem_cons_self gid rest) hne k hk k0 hk0 hk0e.symm)
        (fun g1 hg1 g2 hg2 => h5 g1 (List.mem_cons_of_mem gid hg1) g2
          (List.mem_cons_of_mem gid hg2))
        (fun g hg => h6 g (List.mem_cons_of_mem gid hg))
      refine ⟨hres.1, hres.2.1, fun x => ?_⟩
      rw [hres.2.2 x]
      constructor
      · rintro (hx | ⟨g, hg, hgf, hgx⟩)
        · rcases List.mem_append.mp hx with hx1 | hx1
          · exact Or.inl hx1
          · exact Or.inr ⟨gid, List.mem_cons_self gid rest, hskipf, hx1⟩
        · exact Or.inr ⟨g, List.mem_cons_of_mem gid hg, hgf, hgx⟩
      · rintro (hx | ⟨g, hg, hgf, hgx⟩)
        · exact Or.inl (List.mem_append.mpr (Or.inl hx))
        · rcases List.mem_cons.mp hg with hgg | hgg
          · subst hgg
            exact Or.inl (List.mem_append.mpr (Or.inr hgx))
          · exact Or.inr ⟨g, hgg, hgf, hgx⟩

/-- C4: in vocabulary mode one resolver call whose primary match is a
fragment of item `W` removes from the board every fragment of every
on-board instance of `W` — not only the matched group — and produces
exactly one explosion per cleared block.  Hypotheses: the primary match
is a word fragment of `W` in a well-formed board state (distinct block
ids, every `W` fragment carrying a non-empty group id, and fragments of
one group belonging to one item). -/
theorem vocab_clear_sweeps_all_instances
    (st : GameState) (val : String) (now : ℕ) (m : KanaCharacter) (W g : String)
    (hfind : findMatch (st.activeKana ++ st.stackedKana) val = some m)
    (htype : m.type = .word)
    (hW : m.wordId = some W) (hWne : ¬ W.isEmpty = true)
    (hg : m.wordGroupId = some g) (hgne : ¬ g.isEmpty = true)
    (Hnodup : ((st.activeKana ++ st.stackedKana).map (fun k => k.id)).Nodup)
    (Htruthy : ∀ k ∈ st.activeKana ++ st.stackedKana, k.wordId = some W →
      ∃ s, k.wordGroupId = some s ∧ ¬ s.isEmpty = true)
    (Hsame : ∀ k1 ∈ st.activeKana ++ st.stackedKana,
      ∀ k2 ∈ st.activeKana ++ st.stackedKana, ∀ s : String, ¬ s.isEmpty = true →
      k1.wordGroupId = some s → k2.wordGroupId = some s →
      k1.wordId = k2.wordId) :
    (∀ k ∈ st.activeKana ++ st.stackedKana,
      (k.id ∈ (computeRemoval st.activeKana st.stackedKana m).1 ↔
        k.wordId = some W)) ∧
    (computeRemoval st.activeKana st.stackedKana m).2.length =
      ((st.activeKana ++ st.stackedKana).filter
        (fun k => k.wordId == some W)).length ∧
    (processInput st val now).activeKana =
      st.activeKana.filter (fun k => !(k.wordId == some W)) ∧
    (processInput st val now).stackedKana =
      st.stackedKana.filter (fun k => !(k.wordId == some W)) := by
  have hmem : m ∈ st.activeKana ++ st.stackedKana := findMatch_mem _ _ _ hfind
  have hcond1 : truthyStr m.wordGroupId = true := by
    rw [hg]
    cases hb : String.isEmpty g with
    | false => simp [truthyStr, hb]
    | true => exact absurd hb hgne
  have hcond2 : (m.type == BlockType.word && truthyStr m.wordId) = true := by
    rw [htype, hW]
    cases hb : String.isEmpty W with
    | false => simp [truthyStr, hb]
    | true => exact absurd hb hWne
  have hcr : computeRemoval st.activeKana st.stackedKana m =
      (matchingGroupIds ((st.activeKana ++ st.stackedKana).filter
        (fun k => k.wordId == m.wordId))).foldl
        (fun acc gid =>
          if m.wordGroupId == some gid then acc
          else (acc.1 ++ ((st.activeKana ++ st.stackedKana).filter
                  (fun k => k.wordGroupId == some gid)).map (fun k => k.id),
                acc.2 ++ ((st.activeKana ++ st.stackedKana).filter
                  (fun k => k.wordGroupId == some gid)).map
                  (fun k => Explosion.mk k.x k.y)))
        ((((st.activeKana ++ st.stackedKana).filter
            (fun k => k.wordGroupId == m.wordGroupId)).map (fun k => k.id)),
         (((st.activeKana ++ st.stackedKana).filter
            (fun k => k.wordGroupId == m.wordGroupId)).map
            (fun k => Explosion.mk k.x k.y))) := by
    unfold computeRemoval
    rw [hcond1, hcond2]
    simp only [if_true]
  have hvidinj : ∀ k1 ∈ st.activeKana ++ st.stackedKana,
      ∀ k2 ∈ st.activeKana ++ st.stackedKana, k1.id = k2.id → k1 = k2 :=
    fun k1 h1 k2 h2 he => List.inj_on_of_nodup_map Hnodup h1 h2 he
  have hgidOf : ∀ gid : String, ∀ k ∈ (st.activeKana ++ st.stackedKana).filter
      (fun k => k.wordGroupId == some gid),
      k.wordGroupId = some gid ∧ k ∈ st.activeKana ++ st.stackedKana := by
    intro gid k hk
    have h2 := List.mem_filter.mp hk
    exact ⟨by simpa using h2.2, h2.1⟩
  have hclassnodup : ∀ gid : String,
      (((st.activeKana ++ st.stackedKana).filter
        (fun k => k.wordGroupId == some gid)).map (fun k => k.id)).Nodup :=
    fun gid => List.Nodup.sublist
      (List.Sublist.map _ (List.filter_sublist _)) Hnodup
  have hclassdisj : ∀ gid1 gid2 : String, gid1 ≠ gid2 →
      ∀ k1 ∈ (st.activeKana ++ st.stackedKana).filter
        (fun k => k.wordGroupId == some gid1),
      ∀ k2 ∈ (st.activeKana ++ st.stackedKana).filter
        (fun k => k.wordGroupId == some gid2), k1.id ≠ k2.id := by
    intro gid1 gid2 hne k1 hk1 k2 hk2 heq
    obtain ⟨hg1, hL1⟩ := hgidOf gid1 k1 hk1
    obtain ⟨hg2, hL2⟩ := hgidOf gid2 k2 hk2
    have hk12 : k1 = k2 := hvidinj k1 hL1 k2 hL2 heq
    rw [hk12, hg2] at hg1
    exact hne (Option.some.inj hg1).symm
  have hGsound : ∀ gid ∈ matchingGroupIds ((st.activeKana ++ st.stackedKana).filter
      (fun k => k.wordId == m.wordId)),
      ∃ k0 ∈ st.activeKana ++ st.stackedKana, k0.wordId = some W ∧
        k0.wordGroupId = some gid ∧ ¬ gid.isEmpty = true := by
    intro gid hgid
    have hmem2 := (mem_dedupKeys _ _).mp hgid
    obtain ⟨k0, hk0, hk0f⟩ := List.mem_filterMap.mp hmem2
    have hk0L := List.mem_filter.mp hk0
    have hk0W : k0.wordId = some W := by
      have h0 : k0.wordId = m.wordId := by simpa using hk0L.2
      rw [h0, hW]
    rcases hcase : k0.wordGroupId with _ | s
    · rw [hcase] at hk0f
      cases hk0f
    · rw [hcase] at hk0f
      by_cases hse : s.isEmpty = true
      · simp [hse] at hk0f
      · simp only [hse, Bool.false_eq_true, if_false] at hk0f
        have hsg : s = gid := Option.some.inj hk0f
        subst hsg
        exact ⟨k0, hk0L.1, hk0W, hcase, hse⟩
  have hGcomplete : ∀ k ∈ st.activeKana ++ st.stackedKana, k.wordId = some W →
      ∀ s, k.wordGroupId = some s → ¬ s.isEmpty = true →
      s ∈ matchingGroupIds ((st.activeKana ++ st.stackedKana).filter
        (fun k => k.wordId == m.wordId)) := by
    intro k hk hkW s hks hse
    apply (mem_dedupKeys _ _).mpr
    apply List.mem_filterMap.mpr
    refine ⟨k, List.mem_filter.mpr ⟨hk, by simp [hkW, hW]⟩, ?_⟩
    rw [hks]
    simp [hse]
  have hclassW : ∀ gid ∈ matchingGroupIds ((st.activeKana ++ st.stackedKana).filter
      (fun k => k.wordId == m.wordId)),
      ∀ k ∈ (st.activeKana ++ st.stackedKana).filter
        (fun k => k.wordGroupId == some gid), k.wordId = some W := by
    intro gid hgid k hk
    obtain ⟨k0, hk0L, hk0W, hk0g, hgidne⟩ := hGsound gid hgid
    obtain ⟨hkg, hkL⟩ := hgidOf gid k hk
    have := Hsame k hkL k0 hk0L gid hgidne hkg hk0g
    rw [this, hk0W]
  have hclassgW : ∀ k ∈ (st.activeKana ++ st.stackedKana).filter
      (fun k => k.wordGroupId == m.wordGroupId), k.wordId = some W := by
    intro k hk
    have h2 := List.mem_filter.mp hk
    have hkg : k.wordGroupId = m.wordGroupId := by simpa using h2.2
    rw [hg] at hkg
    have := Hsame k h2.1 m hmem g hgne hkg hg
    rw [this, hW]
  have hbaseW : ∀ x ∈ (((st.activeKana ++ st.stackedKana).filter
      (fun k => k.wordGroupId == m.wordGroupId)).map (fun k => k.id)),
      ∃ k ∈ st.activeKana ++ st.stackedKana, k.id = x ∧ k.wordId = some W := by
    intro x hx
    obtain ⟨k, hk, hke⟩ := List.mem_map.mp hx
    have h2 := List.mem_filter.mp hk
    exact ⟨k, h2.1, hke, hclassgW k hk⟩
  have hfold := removal_fold_spec (st.activeKana ++ st.stackedKana) m
    (matchingGroupIds ((st.activeKana ++ st.stackedKana).filter
      (fun k => k.wordId == m.wordId)))
    ((((st.activeKana ++ st.stackedKana).filter
        (fun k => k.wordGroupId == m.wordGroupId)).map (fun k => k.id)),
     (((st.activeKana ++ st.stackedKana).filter
        (fun k => k.wordGroupId == m.wordGroupId)).map
        (fun k => Explosion.mk k.x k.y)))
    (by simp)
    (by rw [hg]; exact hclassnodup g)
    (dedupKeys_nodup _)
    (by
      intro gid hgid hgf k hk hkin
      have hne : g ≠ gid := by
        intro hgg
        rw [hg, hgg] at hgf
        simp at hgf
      rw [hg] at hkin
      obtain ⟨k0, hk0, hk0e⟩ := List.mem_map.mp hkin
      exact hclassdisj gid g hne.symm k hk k0 hk0 hk0e.symm
      )
    (fun g1 _ g2 _ hne => hclassdisj g1 g2 hne)
    (fun gid _ => hclassnodup gid)
  have hsem : ∀ x, x ∈ (computeRemoval st.activeKana st.stackedKana m).1 ↔
      ∃ k ∈ st.activeKana ++ st.stackedKana, k.id = x ∧ k.wordId = some W := by
    intro x
    rw [hcr]
    rw [hfold.2.2 x]
    constructor
    · rintro (hx | ⟨gid, hgid, hgf, hgx⟩)
      · exact hbaseW x hx
      · obtain ⟨k, hk, hke⟩ := List.mem_map.mp hgx
        have h2 := List.mem_filter.mp hk
        exact ⟨k, h2.1, hke, hclassW gid hgid k hk⟩
    · rintro ⟨k, hkL, hkid, hkW⟩
      obtain ⟨s, hks, hse⟩ := Htruthy k hkL hkW
      by_cases hsg : s = g
      · left
        apply List.mem_map.mpr
        refine ⟨k, List.mem_filter.mpr ⟨hkL, ?_⟩, hkid⟩
        rw [hks, hg, hsg]
        simp
      · right
        refine ⟨s, hGcomplete k hkL hkW s hks hse, ?_, ?_⟩
        · rw [hg]
          simp only [beq_eq_false_iff_ne, ne_eq, Option.some.injEq]
          exact fun h => hsg h.symm
        · apply List.mem_map.mpr
          exact ⟨k, List.mem_filter.mpr ⟨hkL, by simp [hks]⟩, hkid⟩
  have hconc1 : ∀ k ∈ st.activeKana ++ st.stackedKana,
      (k.id ∈ (computeRemoval st.activeKana st.stackedKana m).1 ↔
        k.wordId = some W) := by
    intro k hk
    rw [hsem k.id]
    constructor
    · rintro ⟨k0, hk0L, hk0id, hk0W⟩
      rw [hvidinj k hk k0 hk0L hk0id.symm]
      exact hk0W
    · intro hkW
      exact ⟨k, hk, rfl, hkW⟩
  have hWN : (((st.activeKana ++ st.stackedKana).filter
      (fun k => k.wordId == some W)).map (fun k => k.id)).Nodup :=
    List.Nodup.sublist (List.Sublist.map _ (List.filter_sublist _)) Hnodup
  have hperm : (computeRemoval st.activeKana st.stackedKana m).1.length =
      (((st.activeKana ++ st.stackedKana).filter
        (fun k => k.wordId == some W)).map (fun k => k.id)).length := by
    have hRnodup : (computeRemoval st.activeKana st.stackedKana m).1.Nodup := by
      rw [hcr]
      exact hfold.2.1
    have hext : ∀ a, a ∈ (computeRemoval st.activeKana st.stackedKana m).1 ↔
        a ∈ (((st.activeKana ++ st.stackedKana).filter
          (fun k => k.wordId == some W)).map (fun k => k.id)) := by
      intro a
      rw [hsem a]
      constructor
      · rintro ⟨k, hkL, hkid, hkW⟩
        exact List.mem_map.mpr ⟨k, List.mem_filter.mpr ⟨hkL, by simp [hkW]⟩, hkid⟩
      · intro ha
        obtain ⟨k, hk, hke⟩ := List.mem_map.mp ha
        have h2 := List.mem_filter.mp hk
        exact ⟨k, h2.1, hke, by simpa using h2.2⟩
    exact ((List.perm_ext_iff_of_nodup hRnodup hWN).mpr hext).length_eq
  have hconc2 : (computeRemoval st.activeKana st.stackedKana m).2.length =
      ((st.activeKana ++ st.stackedKana).filter
        (fun k => k.wordId == some W)).length := by
    have h1 : (computeRemoval st.activeKana st.stackedKana m).2.length =
        (computeRemoval st.activeKana st.stackedKana m).1.length := by
      rw [hcr]
      exact hfold.1
    rw [h1, hperm, List.length_map]
  have hfiltereq : ∀ l : List KanaCharacter,
      (∀ k ∈ l, k ∈ st.activeKana ++ st.stackedKana) →
      l.filter (fun k =>
        !((computeRemoval st.activeKana st.stackedKana m).1.contains k.id)) =
      l.filter (fun k => !(k.wordId == some W)) := by
    intro l hl
    apply List.filter_congr
    intro k hk
    have hiff := hconc1 k (hl k hk)
    have helem : ((computeRemoval st.activeKana st.stackedKana m).1.contains k.id
        = true) ↔ k.id ∈ (computeRemoval st.activeKana st.stackedKana m).1 :=
      List.elem_iff
    have hcont : ((computeRemoval st.activeKana st.stackedKana m).1.contains k.id)
        = (k.wordId == some W) := by
      rw [Bool.eq_iff_iff, helem, beq_iff_eq]
      exact hiff
    rw [hcont]
  refine ⟨hconc1, hconc2, ?_, ?_⟩
  · show (processInput st val now).activeKana = _
    simp only [processInput, hfind]
    exact hfiltereq st.activeKana (fun k hk => List.mem_append.mpr (Or.inl hk))
  · show (processInput st val now).stackedKana = _
    simp only [processInput, hfind]
    exact hfiltereq st.stackedKana (fun k hk => List.mem_append.mpr (Or.inr hk))

/-- C4 (witness): clearing "neko" with two on-board instances removes
all four fragments in one call and produces four explosions. -/
theorem vocab_clear_sweeps_all_instances_witness :
    (processInput c4State "neko" 0).activeKana = [] ∧
    (processInput c4State "neko" 0).stackedKana = [] ∧
    (computeRemoval c4State.activeKana c4State.stackedKana
      (testWordBlock "a0" "neko" "g1" "neko" 0 2 2 100 none)).2.length = 4 := by
  have h := vocab_clear_sweeps_all_instances c4State "neko" 0
    (testWordBlock "a0" "neko" "g1" "neko" 0 2 2 100 none) "neko" "g1"
    rfl rfl rfl (by decide) rfl (by decide)
    (by decide)
    (by
      intro k hk hkW
      fin_cases hk <;>
        first
        | exact ⟨"g1", rfl, by decide⟩
        | exact ⟨"g2", rfl, by decide⟩)
    (by
      intro k1 hk1 k2 hk2 s hse h1 h2
      fin_cases hk1 <;> fin_cases hk2 <;> rfl)
  refine ⟨?_, ?_, ?_⟩
  · rw [h.2.2.1]
    rfl
  · rw [h.2.2.2]
    rfl
  · rw [h.2.1]
    rfl

theorem processGroup_hintCount (speed : ℚ) (counter : ℕ) (acc : FallAcc)
    (group : List KanaCharacter)
    (ha : ∀ k ∈ acc.nextActive, k.hintCount = none)
    (hs : ∀ k ∈ acc.nextStacked, k.hintCount = none)
    (hg : ∀ k ∈ group, k.hintCount = none) :
    (∀ k ∈ (processGroup speed counter acc group).nextActive, k.hintCount = none) ∧
    (∀ k ∈ (processGroup speed counter acc group).nextStacked, k.hintCount = none) := by
  unfold processGroup
  by_cases hcol : collides acc.nextStacked speed group = true
  · simp only [hcol, if_true]
    refine ⟨ha, ?_⟩
    intro k hk
    rcases List.mem_append.mp hk with h | h
    · exact hs k h
    · obtain ⟨k0, hk0, hk0e⟩ := List.mem_map.mp h
      rw [← hk0e]
      exact hg k0 hk0
  · simp only [Bool.not_eq_true] at hcol
    simp only [hcol, Bool.false_eq_true, if_false]
    refine ⟨?_, hs⟩
    intro k hk
    rcases List.mem_append.mp hk with h | h
    · exact ha k h
    · obtain ⟨k0, hk0, hk0e⟩ := List.mem_map.mp h
      rw [← hk0e]
      exact hg k0 hk0

theorem fallPhase_hintCount (active stacked : List KanaCharacter) (speed : ℚ)
    (counter : ℕ) (score : ℤ)
    (ha : ∀ k ∈ active, k.hintCount = none)
    (hs : ∀ k ∈ stacked, k.hintCount = none) :
    (∀ k ∈ (fallPhase active stacked speed counter score).nextActive,
      k.hintCount = none) ∧
    (∀ k ∈ (fallPhase active stacked speed counter score).nextStacked,
      k.hintCount = none) := by
  have main : ∀ (keys : List String) (acc : FallAcc),
      (∀ k ∈ acc.nextActive, k.hintCount = none) →
      (∀ k ∈ acc.nextStacked, k.hintCount = none) →
      (∀ k ∈ (keys.foldl
        (fun acc key => processGroup speed counter acc
          (active.filter (fun k => groupKey k == key))) acc).nextActive,
        k.hintCount = none) ∧
      (∀ k ∈ (keys.foldl
        (fun acc key => processGroup speed counter acc
          (active.filter (fun k => groupKey k == key))) acc).nextStacked,
        k.hintCount = none) := by
    intro keys
    induction keys with
    | nil => intro acc h1 h2; exact ⟨h1, h2⟩
    | cons key ks ih =>
      intro acc h1 h2
      rw [List.foldl_cons]
      have hgrp : ∀ k ∈ active.filter (fun k => groupKey k == key),
          k.hintCount = none := fun k hk => ha k (List.mem_of_mem_filter hk)
      have hstep := processGroup_hintCount speed counter acc
        (active.filter (fun k => groupKey k == key)) h1 h2 hgrp
      exact ih _ hstep.1 hstep.2
  exact main (dedupKeys (active.map groupKey)) ⟨[], stacked, false, false, score⟩
    (fun k hk => absurd hk (List.not_mem_nil k)) hs

theorem gravityPhase_hintCount (stacked : List KanaCharacter) (speed : ℚ)
    (hs : ∀ k ∈ stacked, k.hintCount = none) :
    ∀ k ∈ gravityPhase stacked speed, k.hintCount = none := by
  unfold gravityPhase
  have main : ∀ (keys : List String) (settled : List KanaCharacter),
      (∀ k ∈ settled, k.hintCount = none) →
      ∀ k ∈ keys.foldl
        (fun settled key =>
          let group := stacked.filter (fun k => groupKey k == key)
          let step := min (groupMinFall settled group) speed
          settled ++ group.map (fun k => { k with y := k.y + max 0 step })) settled,
        k.hintCount = none := by
    intro keys
    induction keys with
    | nil => intro settled h; exact h
    | cons key ks ih =>
      intro settled h
      rw [List.foldl_cons]
      apply ih
      intro k hk
      rcases List.mem_append.mp hk with hmem | hmem
      · exact h k hmem
      · obtain ⟨k0, hk0, hk0e⟩ := List.mem_map.mp hmem
        rw [← hk0e]
        exact hs k0 (List.mem_of_mem_filter hk0)
  exact main _ [] (fun k hk => absurd hk (List.not_mem_nil k))

/-- C10: no operation writes the hint counter.  In every reachable game
state every block — falling or stacked — has `hintCount` absent, and
consequently for every clear the hint-based downgrade branches of the
confidence classification are dead: with zero hints the confidence is a
function of the stacked status and the elapsed counter alone. -/
theorem hintCount_never_written (st : GameState) (h : Reachable st) :
    (∀ k ∈ st.activeKana, k.hintCount = none) ∧
    (∀ k ∈ st.stackedKana, k.hintCount = none) ∧
    (∀ (isStacked : Bool) (elapsed : ℤ),
      classifyConfidence 0 isStacked elapsed =
        (if isStacked then
          (if elapsed ≥ CONFIDENCE_THRESHOLD_DIFFICULT then .difficult
           else if elapsed ≥ CONFIDENCE_THRESHOLD_HESITANT then .hesitant
           else .confident)
         else .confident)) := by
  have hclassify : ∀ (isStacked : Bool) (elapsed : ℤ),
      classifyConfidence 0 isStacked elapsed =
        (if isStacked then
          (if elapsed ≥ CONFIDENCE_THRESHOLD_DIFFICULT then ConfidenceLevel.difficult
           else if elapsed ≥ CONFIDENCE_THRESHOLD_HESITANT then .hesitant
           else .confident)
         else .confident) := by
    intro isStacked elapsed
    cases isStacked <;> simp [classifyConfidence]
  induction h with
  | init mode =>
    exact ⟨fun k hk => absurd hk (List.not_mem_nil k),
      fun k hk => absurd hk (List.not_mem_nil k), hclassify⟩
  | step_tick speed counter now hst ih =>
    rename_i st0
    unfold tick
    by_cases h1 : (!st0.isActive || st0.isGameOver || st0.isPaused) = true
    · simp only [h1, if_true]
      exact ih
    · simp only [Bool.not_eq_true] at h1
      simp only [h1, Bool.false_eq_true, if_false]
      by_cases h2 : st0.frozenUntil ≠ 0 ∧ now < st0.frozenUntil
      · simp only [if_pos h2]
        exact ih
      · simp only [if_neg h2]
        have hfp := fallPhase_hintCount st0.activeKana st0.stackedKana speed counter
          st0.score ih.1 ih.2.1
        exact ⟨hfp.1, gravityPhase_hintCount _ speed hfp.2, hclassify⟩
  | step_spawn entry srsLevel isHira startColumn groupId ids hst ih =>
    rename_i st0
    unfold spawnKana
    by_cases h1 : COLUMNS < (textToDisplay st0.mode entry srsLevel).toList.length
    · simp only [if_pos h1]
      exact ih
    · rw [if_neg h1]
      by_cases h2 : spawnCollides st0.activeKana startColumn
          (textToDisplay st0.mode entry srsLevel).toList.length = true
      · rw [if_pos h2]
        exact ih
      · rw [if_neg h2]
        refine ⟨?_, ih.2.1, hclassify⟩
        intro k hk
        rcases List.mem_append.mp hk with hmem | hmem
        · exact ih.1 k hmem
        · obtain ⟨p, _, hpe⟩ := List.mem_map.mp hmem
          rw [← hpe]
  | step_input val now hst ih =>
    rename_i st0
    unfold processInput
    rcases hm : findMatch (st0.activeKana ++ st0.stackedKana) val with _ | m
    · exact ih
    · refine ⟨?_, ?_, hclassify⟩
      · intro k hk
        exact ih.1 k (List.mem_of_mem_filter hk)
      · intro k hk
        exact ih.2.1 k (List.mem_of_mem_filter hk)

/-- C10 (witness): after spawning into a fresh word-mode game, every
on-board block has no hint counter. -/
theorem hintCount_never_written_witness :
    ((spawnKana (initialState .words) c9Entry 0 false 1 "g7"
      (fun i => toString i)).activeKana.all
        (fun k => k.hintCount == none)) = true := by
  have h := (hintCount_never_written _
    (Reachable.step_spawn c9Entry 0 false 1 "g7" (fun i => toString i)
      (Reachable.init .words))).1
  rw [List.all_eq_true]
  intro k hk
  simp [h k hk]

/-- C6: a landing at or above the topmost playable row (landing row
`≤ 0`) raises the game-over flag of the group pass, the flag is never
cleared by later groups, an active unfrozen tick folds it into
`isGameOver = true` and `isActive = false`, and a tick on a game-over
state leaves the state — in particular the falling set — completely
unchanged until a new game starts. -/
theorem gameOver_on_top_landing (speed : ℚ) (counter now : ℕ) :
    (∀ (acc : FallAcc) (group : List KanaCharacter),
      collides acc.nextStacked speed group = true →
      minTargetY group acc.nextStacked ≤ 0 →
      (processGroup speed counter acc group).gameOver = true) ∧
    (∀ (acc : FallAcc) (group : List KanaCharacter), acc.gameOver = true →
      (processGroup speed counter acc group).gameOver = true) ∧
    (∀ st : GameState, st.isActive = true → st.isGameOver = false →
      st.isPaused = false → ¬ (st.frozenUntil ≠ 0 ∧ now < st.frozenUntil) →
      (fallPhase st.activeKana st.stackedKana speed counter st.score).gameOver = true →
      (tick st speed counter now).isGameOver = true ∧
      (tick st speed counter now).isActive = false) ∧
    (∀ st : GameState, st.isGameOver = true → tick st speed counter now = st) := by
  refine ⟨?_, ?_, ?_, ?_⟩
  · intro acc group hcol hmty
    simp [processGroup, hcol, hmty]
  · intro acc group h
    unfold processGroup
    split <;> simp [h]
  · intro st hA hO hP hF hGo
    simp [tick, hA, hO, hP, hF, hGo]
  · intro st h
    simp [tick, h]

/-- C6 (witness): the concrete landing at row 0 flips the flags, and a
tick on the resulting game-over state is the identity. -/
theorem gameOver_on_top_landing_witness :
    (tick c6State 5 0 0).isGameOver = true ∧
    (tick c6State 5 0 0).isActive = false ∧
    tick c6OverState 5 0 0 = c6OverState := by
  have h := gameOver_on_top_landing 5 0 0
  have hGo : (fallPhase c6State.activeKana c6State.stackedKana 5 0
      c6State.score).gameOver = true := by
    simp only [fallPhase, c6State, testBlock, dedupKeys, groupKey, processGroup,
      collides, topOfStack, minTargetY, CELL_SIZE, BOARD_HEIGHT, List.map,
      List.filter, List.foldl, List.any_cons, List.any_nil]
    norm_num
  have h3 := h.2.2.1 c6State rfl rfl rfl (by simp [c6State]) hGo
  exact ⟨h3.1, h3.2, h.2.2.2 c6OverState rfl⟩
/-- C3 (witness): the three-fragment group whose middle column collides
freezes all three fragments at the single row `420 = 480 - CELL_SIZE`. -/
theorem group_lands_at_uniform_row_witness :
    (processGroup 5 9 ⟨[], [c3Stack], false, false, 0⟩ c3Group).nextStacked =
      [c3Stack,
       testWordBlock "a0" "w" "g1" "neko" 0 3 2 420 (some 9),
       testWordBlock "a1" "w" "g1" "neko" 1 3 3 420 (some 9),
       testWordBlock "a2" "w" "g1" "neko" 2 3 4 420 (some 9)] := by
  have h := group_lands_at_uniform_row ⟨[], [c3Stack], false, false, 0⟩ c3Group 5 9
    (by simp [c3Group])
    (by
      intro s hs
      simp only [c3Stack, testBlock, List.mem_singleton] at hs
      subst hs
      norm_num [BOARD_HEIGHT])
    (by
      simp only [collides, c3Group, c3Stack, testBlock, testWordBlock, topOfStack,
        CELL_SIZE, BOARD_HEIGHT, List.any_cons, List.any_nil, List.filter,
        List.map]
      norm_num)
  rw [h.1]
  have hmty : minTargetY c3Group [c3Stack] = 420 := by
    simp only [minTargetY, c3Group, c3Stack, testBlock, testWordBlock, topOfStack,
      CELL_SIZE, BOARD_HEIGHT, List.foldl_cons, List.foldl_nil, List.filter,
      List.map]
    norm_num [min_def]
  rw [hmty]
  simp [c3Group, c3Stack, testBlock, testWordBlock]

theorem progressGain_nonneg (c : ConfidenceLevel) : 0 ≤ progressGain c := by
  cases c <;> norm_num [progressGain, PROGRESS_CONFIDENT, PROGRESS_HESITANT,
    PROGRESS_DIFFICULT]

theorem srsStep_inv (d : WordSRSData) (c : ConfidenceLevel) (s : ℕ)
    (h : SRSInv d) : SRSInv (srsStep d c s) := by
  obtain ⟨h0, h1, hlt⟩ := h
  have hg := progressGain_nonneg c
  by_cases hup : d.progress + progressGain c ≥ 1 ∧ d.level < SRS_MAX_LEVEL
  · refine ⟨?_, ?_, ?_⟩ <;> simp only [SRSInv, srsStep, if_pos hup]
    · norm_num
    · norm_num
    · intro _; norm_num
  · have hProg : (0:ℚ) ≤ d.progress + progressGain c := by positivity
    refine ⟨?_, ?_, ?_⟩ <;> simp only [SRSInv, srsStep, if_neg hup]
    · exact le_min (by norm_num) hProg
    · exact min_le_left _ _
    · intro hlev
      have hng : ¬ (d.progress + progressGain c ≥ 1) := fun hge => hup ⟨hge, hlev⟩
      exact lt_of_le_of_lt (min_le_right _ _) (lt_of_not_ge hng)

/-- C1 (counterexample): after twelve confident clears the item sits at
`SRS_MAX_LEVEL` with progress 0; two further confident clears drive the
stored progress to exactly 1, so the stored value is not always `< 1`. -/
theorem srs_progress_not_always_lt_one :
    (srsApplyEvents 1 (List.replicate 14 ConfidenceLevel.confident)).progress = 1 ∧
    ¬ (srsApplyEvents 1 (List.replicate 14 ConfidenceLevel.confident)).progress < 1 := by
  have h : (srsApplyEvents 1 (List.replicate 14 ConfidenceLevel.confident)).progress = 1 := by
    norm_num [srsApplyEvents, srsStep, defaultSRSData, progressGain,
      PROGRESS_CONFIDENT, SRS_MAX_LEVEL, SRS_INTERVALS, List.replicate, min_def]
  exact ⟨h, by rw [h]; exact lt_irrefl 1⟩

/-- C1 (amended): after any sequence of clear events the stored progress
lies in `[0, 1]`; it can equal `1` only once the item has reached
`SRS_MAX_LEVEL` — below the maximum level it stays strictly below `1`. -/
theorem srs_progress_bounds (sessionNumber : ℕ) (events : List ConfidenceLevel) :
    0 ≤ (srsApplyEvents sessionNumber events).progress ∧
    (srsApplyEvents sessionNumber events).progress ≤ 1 ∧
    ((srsApplyEvents sessionNumber events).level < SRS_MAX_LEVEL →
      (srsApplyEvents sessionNumber events).progress < 1) := by
  have : SRSInv (srsApplyEvents sessionNumber events) := by
    unfold srsApplyEvents
    induction events using List.reverseRecOn with
    | nil =>
      simp only [List.foldl_nil]
      refine ⟨le_rfl, by norm_num [defaultSRSData], fun _ => by norm_num [defaultSRSData]⟩
    | append_singleton xs x ih =>
      rw [List.foldl_append, List.foldl_cons, List.foldl_nil]
      exact srsStep_inv _ _ _ ih
  exact this

/-- C1 (witness for the amended claim). -/
theorem srs_progress_bounds_witness :
    (srsApplyEvents 1 [ConfidenceLevel.confident]).progress < 1 :=
  (srs_progress_bounds 1 [ConfidenceLevel.confident]).2.2 (by
    norm_num [srsApplyEvents, srsStep, defaultSRSData, progressGain,
      PROGRESS_CONFIDENT, SRS_MAX_LEVEL, min_def])

/-- C2: with exactly one due review item the code draws from the review
pool with probability `0.35`, not the claimed `0.30` — the code adds 5%
for every due item including the first, contradicting its own comment
(`Base chance 30%, +5% for each extra word due`). -/
theorem reviewChance_one_due :
    reviewChance 1 = 7/20 ∧ reviewChance 1 ≠ 3/10 := by
  constructor <;> norm_num [reviewChance]

/-- C8: confidence classification.  For a stacked primary match the
classification is exactly: 3+ hints difficult, 1+ hints hesitant, else
the elapsed counter against the two thresholds (high → difficult, low →
hesitant, otherwise confident).  A match that was never stacked with no
hints recorded (hints only accrue while stacked) is confident.  In
particular a stacked block with zero hints cleared one tick after
landing is confident under the configured thresholds (4 and 10). -/
theorem confidence_classification (hc : ℕ) (elapsed : ℤ) :
    (classifyConfidence hc true elapsed =
      (if hc ≥ 3 then .difficult
       else if hc ≥ 1 then .hesitant
       else if elapsed ≥ CONFIDENCE_THRESHOLD_DIFFICULT then .difficult
       else if elapsed ≥ CONFIDENCE_THRESHOLD_HESITANT then .hesitant
       else .confident)) ∧
    (hc = 0 → classifyConfidence hc false elapsed = .confident) ∧
    classifyConfidence 0 true 1 = .confident := by
  refine ⟨?_, ?_, by decide⟩
  · simp only [classifyConfidence, if_true]
  · intro h
    subst h
    simp [classifyConfidence]

/-- C8 (witness). -/
theorem confidence_classification_witness :
    classifyConfidence 0 false 7 = .confident ∧
    classifyConfidence 2 true 0 = .hesitant := by
  refine ⟨(confidence_classification 0 7).2.1 rfl, ?_⟩
  have h := (confidence_classification 2 0).1
  simpa using h

end KanaPop
